import Mathlib

/-!
Verification of the inventory REPL (`inventory_repl.py`).

Modelling conventions for the shallow embedding:
* Python `float` is modelled by `ℚ` (exact rationals).  The `"%g"`
  conversion is modelled exactly on this substrate (6 significant digits,
  round-half-even, fixed notation for decimal exponents in `[-4, 5]`,
  scientific notation otherwise, trailing zeros stripped); IEEE specials
  (`inf`, `nan`, signed zero) have no rational counterpart and are out of
  the model.
* `float(str)` and `int(str)` are modelled on their decimal grammars
  (sign, digits, optional point and exponent); locale/underscore forms and
  `inf`/`nan` words are treated as failures, matching their irrelevance to
  the repository's data.
* JSON values are modelled by the inductive `JVal`; a Python `dict` is an
  association list with unique keys in insertion order.
* Decoding a part record (`part_from_dict`) is modelled exactly as Python
  performs it: the construction checks only field presence, the
  keyword-expansion shape of the ranges and `int()` convertibility of
  `quantity`, and stores the raw field values unchecked (`RawPart`).  The
  dynamic attribute, comparison and format errors that later operations
  on such a part can raise are modelled by the fallible `dynDedupeKey`,
  `dynRangeFmt` and `dynDefRange`.
* Interactive prompts deliver values; the prompted results are passed to
  the action functions as arguments.  Fallible actions return
  `Except String`; an `Except.error` models an exception propagating out
  of the action (caught and reported by the REPL loop).
-/

namespace Inventory

/-! ### Python string primitives -/

/-- Whitespace set of Python's `str.strip()` (ASCII part). -/
def pyIsSpace (c : Char) : Bool :=
  c == ' ' || c == '\t' || c == '\n' || c == '\r' || c == '\x0b' || c == '\x0c'

/-- Model of `str.strip()` on a character list. -/
def pyStripL (l : List Char) : List Char :=
  ((l.dropWhile pyIsSpace).reverse.dropWhile pyIsSpace).reverse

/-- Model of `str.strip()`. -/
def pyStrip (s : String) : String := ⟨pyStripL s.data⟩

/-- Model of `str.lower()` (ASCII behaviour). -/
def pyLower (s : String) : String := ⟨s.data.map Char.toLower⟩

/-! ### Decimal digits -/

/-- Base-10 digits, least significant first, with explicit fuel
(`natDigitsRev n n` is total and agrees with `Nat.digits 10 n`). -/
def natDigitsRev : ℕ → ℕ → List ℕ
  | 0, _ => []
  | _ + 1, 0 => []
  | f + 1, n + 1 => ((n + 1) % 10) :: natDigitsRev f ((n + 1) / 10)

/-- Base-10 digits of `n`, least significant first. -/
def digitsOf (n : ℕ) : List ℕ := natDigitsRev n n

/-- Digits of the decimal numeral of `n`, most significant first (`[0]`
for zero). -/
def natDigitsMSB (n : ℕ) : List ℕ :=
  if n = 0 then [0] else (digitsOf n).reverse

/-- Characters of the decimal numeral of `n`, most significant first. -/
def natChars (n : ℕ) : List Char :=
  (natDigitsMSB n).map Nat.digitChar

/-- Numeric value of a most-significant-first digit-character list. -/
def natFromDigitChars (l : List Char) : ℕ :=
  l.foldl (fun a c => 10 * a + (c.toNat - 48)) 0

/-- Remove trailing `'0'` characters. -/
def dropTrailingZeros (l : List Char) : List Char :=
  (l.reverse.dropWhile (fun c => c == '0')).reverse

/-! ### The `%g` conversion -/

/-- Round a non-negative rational to the nearest natural, halves to even
(the rounding used by float formatting). -/
def roundHalfEven (q : ℚ) : ℕ :=
  let n := (⌊q⌋).toNat
  if q - (n : ℚ) < 1 / 2 then n
  else if 1 / 2 < q - (n : ℚ) then n + 1
  else if n % 2 = 0 then n else n + 1

/-- For `0 < x < 1`, the least `k ≥ 1` with `1 ≤ x * 10 ^ k`
(so `10 ^ (-k) ≤ x < 10 ^ (-k + 1)`); fuelled, the fuel passed by
`fmtGPos` is always sufficient. -/
def subOneExp : ℕ → ℚ → ℕ
  | 0, _ => 1
  | f + 1, x => if 1 ≤ x * 10 then 1 else subOneExp f (x * 10) + 1

/-- Exponent suffix of scientific notation: `e`, a sign, and the decimal
exponent padded to at least two digits. -/
def expChars (e : ℤ) : List Char :=
  let ds := (digitsOf e.natAbs).reverse.map Nat.digitChar
  let ds := if ds.length < 2 then '0' :: ds else ds
  'e' :: (if e < 0 then '-' else '+') :: ds

/-- Six-significant-digit mantissa and exponent for `x ≥ 1`, given the
decimal exponent `eN` of `⌊x⌋`. -/
def mantissaExpGe1 (x : ℚ) (eN : ℕ) : ℕ × ℤ :=
  if eN ≤ 5 then (roundHalfEven (x * (10 : ℚ) ^ (5 - eN)), (eN : ℤ))
  else (roundHalfEven (x / (10 : ℚ) ^ (eN - 5)), (eN : ℤ))

/-- Six-significant-digit mantissa (in `[10^5, 10^6]`, the top value when
rounding overflows) and decimal exponent of `x > 0`. -/
def mantissaExp (x : ℚ) : ℕ × ℤ :=
  if 1 ≤ x then mantissaExpGe1 x ((digitsOf (⌊x⌋).toNat).length - 1)
  else
    (roundHalfEven (x * (10 : ℚ) ^ (subOneExp ((digitsOf x.den).length + 2) x + 5)),
      -(subOneExp ((digitsOf x.den).length + 2) x : ℤ))

/-- Presentation step of `%g`: fixed notation for `-4 ≤ e ≤ 5`,
scientific otherwise, trailing zeros stripped. -/
def fmtSix (m : ℕ) (e : ℤ) : String :=
  if e < -4 ∨ 6 ≤ e then
    match (digitsOf m).reverse.map Nat.digitChar with
    | [] => "0"
    | c :: rest =>
      if dropTrailingZeros rest = [] then ⟨c :: expChars e⟩
      else ⟨c :: '.' :: (dropTrailingZeros rest ++ expChars e)⟩
  else if 0 ≤ e then
    if dropTrailingZeros (((digitsOf m).reverse.map Nat.digitChar).drop (e.toNat + 1)) = [] then
      ⟨((digitsOf m).reverse.map Nat.digitChar).take (e.toNat + 1)⟩
    else
      ⟨((digitsOf m).reverse.map Nat.digitChar).take (e.toNat + 1) ++
        '.' :: dropTrailingZeros (((digitsOf m).reverse.map Nat.digitChar).drop (e.toNat + 1))⟩
  else
    ⟨'0' :: '.' :: dropTrailingZeros (List.replicate (e.natAbs - 1) '0' ++
      (digitsOf m).reverse.map Nat.digitChar)⟩

/-- Model of `"%g" % x` for `x > 0`: 6 significant digits with round-half-even and
the overflow bump, then the presentation step. -/
def fmtGPos (x : ℚ) : String :=
  if 10 ^ 6 ≤ (mantissaExp x).1 then fmtSix (10 ^ 5) ((mantissaExp x).2 + 1)
  else fmtSix (mantissaExp x).1 (mantissaExp x).2

/-- Model of `"%g" % x`, the format used by `f"{value:g}"` in the source. -/
def fmtG (x : ℚ) : String :=
  if x = 0 then "0" else if x < 0 then "-" ++ fmtGPos (-x) else fmtGPos x

/-! ### `float(str)` and `int(str)` -/

/-- Exponent part of a float literal, applied to `base`. -/
def pyFloatExp (l : List Char) (base : ℚ) : Option ℚ :=
  let neg := l.head? = some '-'
  let rest := if l.head? = some '-' ∨ l.head? = some '+' then l.tail else l
  let ds := rest.takeWhile Char.isDigit
  let r := rest.dropWhile Char.isDigit
  if ds = [] then none
  else if r = [] then
    some (if neg then base / (10 : ℚ) ^ natFromDigitChars ds
          else base * (10 : ℚ) ^ natFromDigitChars ds)
  else none

/-- Unsigned float literal: digits, optional point and fraction, optional
exponent; at least one mantissa digit; nothing may remain. -/
def pyFloatMag (l : List Char) : Option ℚ :=
  let ip := l.takeWhile Char.isDigit
  let r1 := l.dropWhile Char.isDigit
  let t1 := if r1.head? = some '.' then r1.tail else r1
  let fp := if r1.head? = some '.' then t1.takeWhile Char.isDigit else []
  let r2 := if r1.head? = some '.' then t1.dropWhile Char.isDigit else r1
  if ip = [] ∧ fp = [] then none
  else
    let base : ℚ := (natFromDigitChars ip : ℚ) +
      (natFromDigitChars fp : ℚ) / (10 : ℚ) ^ fp.length
    if r2 = [] then some base
    else if r2.head? = some 'e' ∨ r2.head? = some 'E' then pyFloatExp r2.tail base
    else none

/-- Model of `float(str)` on its decimal grammar (leading/trailing whitespace
stripped, optional sign). -/
def pyFloatOpt (l0 : List Char) : Option ℚ :=
  let l := pyStripL l0
  match l with
  | [] => none
  | c :: t =>
    if c = '+' then pyFloatMag t
    else if c = '-' then (pyFloatMag t).map Neg.neg
    else pyFloatMag (c :: t)

/-- Truncation toward zero, the conversion `int(float)` performs. -/
def ratTrunc (q : ℚ) : ℤ :=
  if q < 0 then -⌊-q⌋ else ⌊q⌋

/-- Model of `int(str)`: optional sign, then decimal digits only. -/
def pyIntOfChars (l0 : List Char) : Option ℤ :=
  let l := pyStripL l0
  match l with
  | [] => none
  | c :: t =>
    let sd : Bool × List Char :=
      if c = '-' then (true, t) else if c = '+' then (false, t) else (false, c :: t)
    if sd.2 ≠ [] ∧ sd.2.all Char.isDigit then
      some (if sd.1 then -(natFromDigitChars sd.2 : ℤ) else (natFromDigitChars sd.2 : ℤ))
    else none

/-! ### `RangeSpec` -/

/-- A numeric interval with a unit (`RangeSpec` dataclass). -/
structure RangeSpec where
  min : ℚ
  max : ℚ
  unit : String
deriving DecidableEq, Repr

/-- Model of `RangeSpec.normalized`: swap out-of-order bounds, trim the unit. -/
def RangeSpec.normalized (r : RangeSpec) : RangeSpec :=
  if r.min ≤ r.max then ⟨r.min, r.max, pyStrip r.unit⟩
  else ⟨r.max, r.min, pyStrip r.unit⟩

/-- Model of `RangeSpec.fmt`: display form, single value when the normalized bounds
coincide, `min-max` otherwise, unit appended. -/
def RangeSpec.fmt (r : RangeSpec) : String :=
  if r.normalized.min = r.normalized.max then
    fmtG r.normalized.min ++ r.normalized.unit
  else
    fmtG r.normalized.min ++ "-" ++ fmtG r.normalized.max ++ r.normalized.unit

/-- Model of `RangeSpec.key`: always the two-bound form, lower-cased. -/
def RangeSpec.key (r : RangeSpec) : String :=
  pyLower (fmtG r.normalized.min ++ "-" ++ fmtG r.normalized.max ++ r.normalized.unit)

/-! ### `Part` -/

/-- A stocked item (`Part` dataclass). -/
structure Part where
  category : String
  name : String
  voltage : RangeSpec
  current : RangeSpec
  quantity : ℤ
  notes : String := ""
deriving DecidableEq, Repr

/-- Model of `Part.normalized`: trim the string fields, normalize both ranges
(`int(self.quantity)` is the identity on an integer quantity). -/
def Part.normalized (p : Part) : Part :=
  ⟨pyStrip p.category, pyStrip p.name, p.voltage.normalized, p.current.normalized,
    p.quantity, pyStrip p.notes⟩

/-- Model of `Part.dedupe_key`: lower-cased category and name plus the two range
keys, all taken after normalization. -/
def Part.dedupe_key (p : Part) : String × String × String × String :=
  (pyLower p.normalized.category, pyLower p.normalized.name,
    p.normalized.voltage.key, p.normalized.current.key)

/-- Model of `validate_part`: normalize, then check the invariants in order,
reporting the first violation. -/
def validate_part (p0 : Part) : Except String Part :=
  if p0.normalized.category = "" then .error "category is required"
  else if p0.normalized.name = "" then .error "name is required"
  else if p0.normalized.quantity ≤ 0 then .error "quantity must be > 0"
  else if p0.normalized.voltage.min < 0 ∨ p0.normalized.voltage.max < 0 then
    .error "voltage cannot be negative"
  else if p0.normalized.current.min < 0 ∨ p0.normalized.current.max < 0 then
    .error "current cannot be negative"
  else .ok p0.normalized

/-! ### `parse_range` -/

/-- Model of `s.split(sep, 1)` when `sep` occurs: the pieces around the first
occurrence, `none` when the character is absent. -/
def splitFirst (c : Char) : List Char → Option (List Char × List Char)
  | [] => none
  | x :: t =>
    if x = c then some ([], t)
    else
      match splitFirst c t with
      | some (a, b) => some (x :: a, b)
      | none => none

/-- The two-sided case of `parse_range`: `lo, hi = float(a), float(b)`. -/
def parseTwo (a b : List Char) (unit : String) : Except String RangeSpec :=
  match pyFloatOpt a, pyFloatOpt b with
  | some lo, some hi => .ok ⟨lo, hi, pyStrip unit⟩
  | _, _ => .error "could not convert string to float"

/-- The single-value case of `parse_range`: `lo = hi = float(s)`. -/
def parseOne (s : List Char) (unit : String) : Except String RangeSpec :=
  match pyFloatOpt s with
  | some v => .ok ⟨v, v, pyStrip unit⟩
  | none => .error "could not convert string to float"

/-- Model of `parse_range(text, unit)`: strip, lower-case and remove spaces, check
the text and the unit for emptiness, split on the first `-` if present,
convert the sides by `float`. -/
def parse_range (text unit : String) : Except String RangeSpec :=
  if ((pyStripL text.data).map Char.toLower).filter (fun c => c ≠ ' ') = [] then
    .error "range is empty"
  else if pyStripL unit.data = [] then .error "unit is empty"
  else
    match splitFirst '-' (((pyStripL text.data).map Char.toLower).filter (fun c => c ≠ ' ')) with
    | some (a, b) => parseTwo a b unit
    | none =>
      parseOne (((pyStripL text.data).map Char.toLower).filter (fun c => c ≠ ' ')) unit

/-! ### JSON values and dictionaries -/

/-- A decoded JSON value (`json.loads` output). -/
inductive JVal where
  | null
  | bool (b : Bool)
  | num (q : ℚ)
  | str (s : String)
  | arr (elems : List JVal)
  | obj (fields : List (String × JVal))

/-- First binding of a key in an association list (a Python `dict` has
unique keys, so first and only). -/
def objLookup : List (String × JVal) → String → Option JVal
  | [], _ => none
  | (k', v') :: t, k => if k' = k then some v' else objLookup t k

/-- Model of `d[k] = v` on an association list: replace in place, else append. -/
def setAssoc : List (String × JVal) → String → JVal → List (String × JVal)
  | [], k, v => [(k, v)]
  | (k', v') :: t, k, v =>
    if k' = k then (k, v) :: t else (k', v') :: setAssoc t k v

/-- Model of `d[k] = v` on a value; non-dicts are left unchanged (the operation is
only ever reached on dicts in the source). -/
def objSet (d : JVal) (k : String) (v : JVal) : JVal :=
  match d with
  | .obj fs => .obj (setAssoc fs k v)
  | x => x

/-- Key lookup directly on a value. -/
def objLookupJ (d : JVal) (k : String) : Option JVal :=
  match d with
  | .obj fs => objLookup fs k
  | _ => none

/-- Model of `d.get(k, dflt)`: `none` models the `AttributeError` a non-dict
raises. -/
def pyGet (d : JVal) (k : String) (dflt : JVal) : Option JVal :=
  match d with
  | .obj fs => some ((objLookup fs k).getD dflt)
  | _ => none

/-- Model of `dict.update(src)`: fold the source bindings in order. -/
def objUpdate (d src : JVal) : JVal :=
  match src with
  | .obj fs => fs.foldl (fun acc kv => objSet acc kv.1 kv.2) d
  | _ => d

/-- Field list of a dict value (empty for non-dicts). -/
def dbFields : JVal → List (String × JVal)
  | .obj fs => fs
  | _ => []

/-- Whether a value is a dict. -/
def isObjB : JVal → Bool
  | .obj _ => true
  | _ => false

/-- Whether a value is a list (`isinstance(x, list)`). -/
def isArrB : JVal → Bool
  | .arr _ => true
  | _ => false

/-- Model of `int(x)` on a JSON value: floats truncate toward zero, booleans map
to 0/1, strings go through the integer grammar, everything else raises. -/
def pyIntOpt : JVal → Option ℤ
  | .num q => some (ratTrunc q)
  | .bool b => some (if b then 1 else 0)
  | .str s => pyIntOfChars s.data
  | _ => none

/-- Model of `int(x)` where `x` is the result of a `.get` (`none` = the `.get`
itself raised); an `error` models the uncaught exception. -/
def pyIntE (v : Option JVal) : Except String ℤ :=
  match v with
  | none => .error "attribute error"
  | some j =>
    match pyIntOpt j with
    | some i => .ok i
    | none => .error "invalid literal for int()"

/-- Model of `str(x)`: exact for strings; a surrogate rendering elsewhere (the
source only ever displays this value, never compares it). -/
def pyStr : JVal → String
  | .str s => s
  | .num q => fmtG q
  | .bool b => if b then "True" else "False"
  | .null => "None"
  | .arr _ => "[...]"
  | .obj _ => "{...}"

/-! ### Record decode / encode -/

/-- The object Python's `RangeSpec(**d)` builds from a decoded range record:
the dataclass constructor performs no type checks, so the bound and unit
values are stored as-is. -/
structure RawRange where
  min : JVal
  max : JVal
  unit : JVal

/-- The object Python's `Part(...)` builds inside `part_from_dict`: `quantity`
is already converted by `int(...)` and `notes` by `str(...)`; `category`
and `name` are stored without any type check. -/
structure RawPart where
  category : JVal
  name : JVal
  voltage : RawRange
  current : RawRange
  quantity : ℤ
  notes : String

/-- Model of `RangeSpec(**d)`: keyword expansion requires a dict whose key set
is exactly `min`, `max`, `unit`; the values themselves are taken
unchecked. -/
def rangeFromDict (v : JVal) : Option RawRange :=
  match v with
  | .obj fs =>
    match objLookup fs "min", objLookup fs "max", objLookup fs "unit" with
    | some mn, some mx, some u =>
      if fs.all (fun kv => kv.1 = "min" ∨ kv.1 = "max" ∨ kv.1 = "unit") then
        some ⟨mn, mx, u⟩
      else none
    | _, _, _ => none
  | _ => none

/-- Model of `part_from_dict`: `none` models an exception the construction
itself raises in Python (a subscript on a non-dict, a missing key, a
keyword-expansion mismatch, or an inconvertible `quantity`); every other
record constructs, with its field values stored unchecked. -/
def part_from_dict (d : JVal) : Option RawPart :=
  match d with
  | .obj fs =>
    match objLookup fs "category", objLookup fs "name" with
    | some c, some n =>
      match (objLookup fs "voltage").bind rangeFromDict,
            (objLookup fs "current").bind rangeFromDict with
      | some v, some i =>
        match (objLookup fs "quantity").bind pyIntOpt with
        | some q => some ⟨c, n, v, i, q, pyStr ((objLookup fs "notes").getD (.str ""))⟩
        | none => none
      | _, _ => none
    | _, _ => none
  | _ => none

/-- The numeric value a JSON scalar carries for Python's comparisons and
number formatting: a number is itself and a boolean is its integer value
(Python's `bool` is an `int` subclass, so it compares and formats as 0 or
1); other values have none. -/
def pyNumVal : JVal → Option ℚ
  | .num q => some q
  | .bool b => some (if b then 1 else 0)
  | _ => none

/-- The typed range a constructed raw range denotes when the operations
`normalized`, `key` and `fmt` succeed on it.  In Python they raise unless
both bounds are numeric and the unit is a string: a non-string unit fails
`unit.strip()`, and a non-numeric bound fails either the `min <= max`
comparison (mixed types, `None`, dicts) or the `"%g"` format (strings,
lists, whose mutual comparisons can succeed); numeric bounds and a string
unit make every step behave exactly as on the typed `RangeSpec`. -/
def dynRangeOf (r : RawRange) : Option RangeSpec :=
  match pyNumVal r.min, pyNumVal r.max, r.unit with
  | some a, some b, .str u => some ⟨a, b, u⟩
  | _, _, _ => none

/-- Model of `existing.dedupe_key()` on a constructed part: it succeeds, with
the key of the corresponding typed part, exactly when `category` and
`name` are strings (otherwise `str.strip()` raises) and both ranges
denote typed ranges; the `error` models the uncaught exception. -/
def dynDedupeKey (p : RawPart) : Except String (String × String × String × String) :=
  match p.category, p.name, dynRangeOf p.voltage, dynRangeOf p.current with
  | .str c, .str n, some v, some i =>
    .ok (Part.dedupe_key ⟨c, n, v, i, p.quantity, p.notes⟩)
  | _, _, _, _ => .error "type error"

/-- Model of `p.voltage.fmt()` on a constructed part, as printed by `show`:
it raises unless the raw range denotes a typed range. -/
def dynRangeFmt (r : RawRange) : Except String String :=
  match dynRangeOf r with
  | some rs => .ok rs.fmt
  | none => .error "type error"

/-- Model of the default range text `action_edit` computes from the stored
record, `f"{min:g}-{max:g}" if min != max else f"{min:g}"`: the `!=` test
never raises, but the chosen format raises unless the needed bounds are
numeric (a non-numeric bound is reached in either branch). -/
def dynDefRange (r : RawRange) : Except String String :=
  match pyNumVal r.min, pyNumVal r.max with
  | some a, some b =>
    .ok (if a ≠ b then fmtG a ++ "-" ++ fmtG b else fmtG a)
  | _, _ => .error "unsupported format string"

/-- Model of `asdict` of a normalized range. -/
def RangeSpec.toDict (r : RangeSpec) : JVal :=
  .obj [("min", .num r.min), ("max", .num r.max), ("unit", .str r.unit)]

/-- Model of `part_to_dict`: `asdict(p.normalized())`, fields in dataclass order. -/
def part_to_dict (p : Part) : JVal :=
  .obj [("category", .str p.normalized.category), ("name", .str p.normalized.name),
    ("voltage", p.normalized.voltage.toDict), ("current", p.normalized.current.toDict),
    ("quantity", .num (p.normalized.quantity : ℚ)), ("notes", .str p.normalized.notes)]

/-! ### Store -/

/-- Model of `empty_db()`. -/
def empty_db : JVal := .obj [("version", .num 1), ("parts", .arr [])]

/-- What `load_db` reads: a missing file, undecodable content, or a
decoded value. -/
inductive FileContent where
  | missing
  | invalid
  | parsed (v : JVal)

/-- The check `"parts" in data and isinstance(data["parts"], list)`. -/
def partsOkB (v : JVal) : Bool :=
  match objLookupJ v "parts" with
  | some p => isArrB p
  | none => false

/-- The `parts` repair step of `load_db`: replace a missing or non-list
`parts` field by an empty list. -/
def repairParts (v : JVal) : JVal :=
  if partsOkB v then v else objSet v "parts" (.arr [])

/-- Model of `load_db`: empty database on a missing file, bad JSON, or a non-dict
top level; otherwise repair `parts` when missing or not a list and
default a missing `version`. -/
def load_db : FileContent → JVal
  | .missing => empty_db
  | .invalid => empty_db
  | .parsed v =>
    if isObjB v then
      if (objLookupJ (repairParts v) "version").isSome then repairParts v
      else objSet (repairParts v) "version" (.num 1)
    else empty_db

/-- Model of `next_id`: fold over the records, taking the max of the convertible
ids (the `try`/`except` skip is the `none` branch), plus one. -/
def next_id (parts : List JVal) : ℤ :=
  (parts.foldl
    (fun m d =>
      match (pyGet d "id" (.num 0)).bind pyIntOpt with
      | some v => max m v
      | none => m) 0) + 1

/-! ### Actions -/

/-- The merge scan of `action_add`: a record whose construction raises is
skipped by the loop's `except: continue`, but `existing.dedupe_key()` runs
outside that `try`, so a record that constructs and whose key computation
raises aborts the whole action; the first record whose key computes equal
to the candidate's gets its quantity bumped. `ok none` when no record
matches. -/
def mergeScan : List JVal → Part → Except String (Option (List JVal))
  | [], _ => .ok none
  | d :: t, p =>
    match part_from_dict d with
    | some ex =>
      (dynDedupeKey ex).bind fun k =>
        if k = p.dedupe_key then
          (pyIntE (pyGet d "quantity" (.num 0))).bind fun q =>
            .ok (some (objSet d "quantity" (.num ((q + p.quantity : ℤ) : ℚ)) :: t))
        else (mergeScan t p).map (Option.map (d :: ·))
    | none => (mergeScan t p).map (Option.map (d :: ·))

/-- Model of `action_add` after prompting and validation: merge into the first
record with the candidate's dedupe key, else append a fresh record with
the next id. -/
def action_add (parts : List JVal) (p : Part) : Except String (List JVal) :=
  (mergeScan parts p).bind fun r =>
    match r with
    | some parts' => .ok parts'
    | none =>
      .ok (parts ++ [objSet (part_to_dict p) "id" (.num ((next_id parts : ℤ) : ℚ))])

/-- Model of `action_show`: scan by id (the id conversion is unguarded), decode
the found record and render its two ranges (also unguarded), `none` when
no id matches. -/
def action_show : List JVal → ℤ → Except String (Option (RawPart × String × String))
  | [], _ => .ok none
  | d :: t, id_ =>
    (pyIntE (pyGet d "id" (.num (-1)))).bind fun i =>
      if i = id_ then
        match part_from_dict d with
        | some p =>
          (dynRangeFmt p.voltage).bind fun vs =>
            (dynRangeFmt p.current).map fun cs => some (p, vs, cs)
        | none => .error "key error"
      else action_show t id_

/-- Outcome reported by `action_remove`. -/
inductive RemoveMsg where
  | notFound
  | deleted
  | usage
  | decremented (q : ℤ)
  | removedAtZero
deriving DecidableEq, Repr

/-- Model of `action_remove`: find by id; delete with no decrement argument;
reject a non-positive decrement; subtract, keeping the record only when
the result stays positive. -/
def action_remove : List JVal → ℤ → Option ℤ → Except String (RemoveMsg × List JVal)
  | [], _, _ => .ok (.notFound, [])
  | d :: t, id_, dec =>
    (pyIntE (pyGet d "id" (.num (-1)))).bind fun i =>
      if i = id_ then
        match dec with
        | none => .ok (.deleted, t)
        | some n =>
          if n ≤ 0 then .ok (.usage, d :: t)
          else
            (pyIntE (pyGet d "quantity" (.num 0))).bind fun q =>
              if 0 < q - n then
                .ok (.decremented (q - n), objSet d "quantity" (.num ((q - n : ℤ) : ℚ)) :: t)
              else .ok (.removedAtZero, t)
      else (action_remove t id_ dec).map fun mt => (mt.1, d :: mt.2)

/-- Outcome reported by `action_edit`. -/
inductive EditMsg where
  | notFound
  | updated
deriving DecidableEq, Repr

/-- Model of `action_edit` with the prompted replacement part: find by id,
decode the current record and compute the default range texts for the
prompts (all unguarded), validate the replacement, overwrite the record's
fields in place. -/
def action_edit : List JVal → ℤ → Part → Except String (EditMsg × List JVal)
  | [], _, _ => .ok (.notFound, [])
  | d :: t, id_, cand =>
    (pyIntE (pyGet d "id" (.num (-1)))).bind fun i =>
      if i = id_ then
        match part_from_dict d with
        | none => .error "key error"
        | some p =>
          (dynDefRange p.voltage).bind fun _ =>
            (dynDefRange p.current).bind fun _ =>
              (validate_part cand).bind fun u =>
                .ok (.updated, objUpdate d (part_to_dict u) :: t)
      else (action_edit t id_ cand).map fun mt => (mt.1, d :: mt.2)

/-- The id the claim attributes to a record: the converted id, with
malformed or missing ids counted as 0. -/
def idClaim (d : JVal) : ℤ :=
  ((pyGet d "id" (.num 0)).bind pyIntOpt).getD 0

/-- The claim's "maximum of the existing ids". -/
def claimMaxIds (parts : List JVal) : ℤ :=
  (parts.map idClaim).foldl max 0

/-- Whether an `Except` is a success. -/
def isOkE : Except String α → Bool
  | .ok _ => true
  | .error _ => false

/-! ## Lemmas about stripping -/

theorem dropWhile_self (p : α → Bool) (l : List α) :
    (l.dropWhile p).dropWhile p = l.dropWhile p := by
  induction l with
  | nil => rfl
  | cons a t ih =>
    rw [List.dropWhile_cons]
    split
    · exact ih
    · next h => rw [List.dropWhile_cons_of_neg h]

theorem length_dropWhile_le' (p : α → Bool) (l : List α) :
    (l.dropWhile p).length ≤ l.length := by
  induction l with
  | nil => exact le_refl _
  | cons a t ih =>
    rw [List.dropWhile_cons]
    split
    · exact le_trans ih (Nat.le_succ _)
    · exact le_refl _

theorem dropWhile_eq_self_head {p : α → Bool} {l : List α} {c : α} {t : List α}
    (h : l.dropWhile p = l) (he : l = c :: t) : p c = false := by
  subst he
  by_cases hc : p c = true
  · rw [List.dropWhile_cons_of_pos hc] at h
    have hlen := congrArg List.length h
    have hle := length_dropWhile_le' p t
    simp only [List.length_cons] at hlen
    omega
  · simpa using hc

theorem dropWhile_eq_self_of {p : α → Bool} {l : List α} (h : ∀ a ∈ l, p a = false) :
    l.dropWhile p = l := by
  cases l with
  | nil => rfl
  | cons a t => rw [List.dropWhile_cons_of_neg (by simp [h a (List.mem_cons_self a t)])]

theorem pyStripL_eq_self {l : List Char} (h : ∀ c ∈ l, pyIsSpace c = false) :
    pyStripL l = l := by
  unfold pyStripL
  rw [dropWhile_eq_self_of h,
    dropWhile_eq_self_of (fun c hc => h c (List.mem_reverse.mp hc)),
    List.reverse_reverse]

theorem pyStripL_no_leading (l : List Char) :
    (pyStripL l).dropWhile pyIsSpace = pyStripL l := by
  unfold pyStripL
  cases hcase : ((l.dropWhile pyIsSpace).reverse.dropWhile pyIsSpace).reverse with
  | nil => rfl
  | cons c t =>
    have hws : pyIsSpace c = false := by
      have h := congrArg List.reverse
        (List.takeWhile_append_dropWhile pyIsSpace (l.dropWhile pyIsSpace).reverse)
      rw [List.reverse_append, List.reverse_reverse, hcase] at h
      exact dropWhile_eq_self_head (dropWhile_self pyIsSpace l)
        (show l.dropWhile pyIsSpace
            = c :: (t ++ (List.takeWhile pyIsSpace (l.dropWhile pyIsSpace).reverse).reverse) from by
          rw [← List.cons_append]
          exact h.symm)
    rw [List.dropWhile_cons_of_neg (by simp [hws])]

theorem pyStripL_idem (l : List Char) : pyStripL (pyStripL l) = pyStripL l := by
  calc pyStripL (pyStripL l)
      = (((pyStripL l).dropWhile pyIsSpace).reverse.dropWhile pyIsSpace).reverse := rfl
    _ = ((pyStripL l).reverse.dropWhile pyIsSpace).reverse := by
        rw [pyStripL_no_leading]
    _ = (((l.dropWhile pyIsSpace).reverse.dropWhile pyIsSpace).dropWhile pyIsSpace).reverse := by
        rw [show (pyStripL l).reverse = (l.dropWhile pyIsSpace).reverse.dropWhile pyIsSpace from by
          unfold pyStripL
          rw [List.reverse_reverse]]
    _ = ((l.dropWhile pyIsSpace).reverse.dropWhile pyIsSpace).reverse := by
        rw [dropWhile_self]
    _ = pyStripL l := rfl

theorem pyStrip_idem (s : String) : pyStrip (pyStrip s) = pyStrip s :=
  congrArg String.mk (pyStripL_idem s.data)

/-! ## Lemmas about decimal digits -/

theorem natDigitsRev_eq : ∀ f n : ℕ, n ≤ f → natDigitsRev f n = Nat.digits 10 n := by
  intro f
  induction f with
  | zero =>
    intro n h
    interval_cases n
    rw [Nat.digits_zero]
    rfl
  | succ f ih =>
    intro n h
    match n with
    | 0 =>
      rw [Nat.digits_zero]
      rfl
    | m + 1 =>
      rw [show natDigitsRev (f + 1) (m + 1)
          = ((m + 1) % 10) :: natDigitsRev f ((m + 1) / 10) from rfl,
        Nat.digits_def' (by norm_num : (1 : ℕ) < 10) (Nat.succ_pos m)]
      congr 1
      refine ih ((m + 1) / 10) ?_
      have := Nat.div_lt_self (Nat.succ_pos m) (by norm_num : 1 < 10)
      omega

theorem digitsOf_eq (n : ℕ) : digitsOf n = Nat.digits 10 n :=
  natDigitsRev_eq n n (le_refl n)

theorem digitsOf_len (n : ℕ) (hn : n ≠ 0) : (digitsOf n).length = Nat.log 10 n + 1 := by
  rw [digitsOf_eq]
  exact Nat.digits_len 10 n (by norm_num) hn

theorem digitsOf_lt {n d : ℕ} (hd : d ∈ digitsOf n) : d < 10 := by
  rw [digitsOf_eq] at hd
  exact Nat.digits_lt_base (by norm_num) hd

theorem digitsOf_ne_nil {n : ℕ} (hn : n ≠ 0) : digitsOf n ≠ [] := by
  rw [digitsOf_eq]
  exact Nat.digits_ne_nil_iff_ne_zero.mpr hn

theorem digitsOf_mul_pow (n k : ℕ) (hn : n ≠ 0) :
    digitsOf (n * 10 ^ k) = List.replicate k 0 ++ digitsOf n := by
  rw [digitsOf_eq, digitsOf_eq, mul_comm]
  exact Nat.digits_base_pow_mul (by norm_num) (Nat.pos_of_ne_zero hn)

theorem digitChar_facts (d : ℕ) (hd : d < 10) :
    (Nat.digitChar d).isDigit = true ∧ pyIsSpace (Nat.digitChar d) = false
    ∧ Char.toLower (Nat.digitChar d) = Nat.digitChar d
    ∧ Nat.digitChar d ≠ ' ' ∧ Nat.digitChar d ≠ '-' ∧ Nat.digitChar d ≠ '+'
    ∧ (Nat.digitChar d).toNat - 48 = d := by
  interval_cases d <;> exact ⟨by decide, by decide, by decide, by decide,
    by decide, by decide, by decide⟩

theorem natDigitsMSB_lt (n : ℕ) : ∀ d ∈ natDigitsMSB n, d < 10 := by
  intro d hd
  unfold natDigitsMSB at hd
  split at hd
  · simp at hd
    omega
  · exact digitsOf_lt (List.mem_reverse.mp hd)

theorem natDigitsMSB_ne_nil (n : ℕ) : natDigitsMSB n ≠ [] := by
  unfold natDigitsMSB
  split
  · simp
  · next h =>
    simp only [ne_eq, List.reverse_eq_nil_iff]
    exact digitsOf_ne_nil h

theorem natChars_ne_nil (n : ℕ) : natChars n ≠ [] := by
  unfold natChars
  simp only [ne_eq, List.map_eq_nil_iff]
  exact natDigitsMSB_ne_nil n

theorem natChars_facts (n : ℕ) : ∀ c ∈ natChars n,
    c.isDigit = true ∧ pyIsSpace c = false ∧ Char.toLower c = c
    ∧ c ≠ ' ' ∧ c ≠ '-' ∧ c ≠ '+' := by
  intro c hc
  obtain ⟨d, hd, rfl⟩ := List.mem_map.mp hc
  have h10 := natDigitsMSB_lt n d hd
  obtain ⟨h1, h2, h3, h4, h5, h6, _⟩ := digitChar_facts d h10
  exact ⟨h1, h2, h3, h4, h5, h6⟩

theorem foldl_digits_eq (l : List ℕ) (a : ℕ) :
    l.reverse.foldl (fun acc d => 10 * acc + d) a
      = a * 10 ^ l.length + Nat.ofDigits 10 l := by
  induction l generalizing a with
  | nil => simp
  | cons d t ih =>
    rw [List.reverse_cons, List.foldl_append, List.foldl_cons, List.foldl_nil, ih,
      Nat.ofDigits_cons, List.length_cons]
    ring

theorem foldl_digitChar (l : List ℕ) (hl : ∀ d ∈ l, d < 10) (a : ℕ) :
    (l.map Nat.digitChar).foldl (fun acc c => 10 * acc + (c.toNat - 48)) a
      = l.foldl (fun acc d => 10 * acc + d) a := by
  induction l generalizing a with
  | nil => rfl
  | cons d t ih =>
    simp only [List.map_cons, List.foldl_cons]
    rw [(digitChar_facts d (hl d (List.mem_cons_self d t))).2.2.2.2.2.2]
    exact ih (fun x hx => hl x (List.mem_cons_of_mem _ hx)) _

theorem natFromDigitChars_natChars (n : ℕ) : natFromDigitChars (natChars n) = n := by
  unfold natFromDigitChars natChars
  rw [foldl_digitChar _ (natDigitsMSB_lt n)]
  unfold natDigitsMSB
  split
  · next h => simp [h]
  · next h =>
    rw [foldl_digits_eq, digitsOf_eq, Nat.ofDigits_digits]
    simp

/-! ## The `%g` conversion at natural values -/

theorem roundHalfEven_natCast (m : ℕ) : roundHalfEven (m : ℚ) = m := by
  show (if (m : ℚ) - (((⌊(m : ℚ)⌋).toNat : ℕ) : ℚ) < 1 / 2 then (⌊(m : ℚ)⌋).toNat
    else if 1 / 2 < (m : ℚ) - (((⌊(m : ℚ)⌋).toNat : ℕ) : ℚ) then (⌊(m : ℚ)⌋).toNat + 1
    else if (⌊(m : ℚ)⌋).toNat % 2 = 0 then (⌊(m : ℚ)⌋).toNat
    else (⌊(m : ℚ)⌋).toNat + 1) = m
  rw [Int.floor_natCast, Int.toNat_natCast, sub_self,
    if_pos (by norm_num : (0 : ℚ) < 1 / 2)]

theorem mantissaExp_natCast (n : ℕ) (h1 : 1 ≤ n) (h6 : n < 10 ^ 6) :
    mantissaExp (n : ℚ)
      = (n * 10 ^ (5 - Nat.log 10 n), (Nat.log 10 n : ℤ)) := by
  unfold mantissaExp
  rw [if_pos (by exact_mod_cast h1 : (1 : ℚ) ≤ (n : ℚ)), Int.floor_natCast,
    Int.toNat_natCast, digitsOf_len n (by omega), Nat.add_sub_cancel]
  unfold mantissaExpGe1
  have hlog : Nat.log 10 n ≤ 5 := by
    have := Nat.log_lt_of_lt_pow (by omega : n ≠ 0) h6
    omega
  rw [if_pos hlog]
  have hcast : (n : ℚ) * (10 : ℚ) ^ (5 - Nat.log 10 n)
      = ((n * 10 ^ (5 - Nat.log 10 n) : ℕ) : ℚ) := by
    push_cast
    ring
  rw [hcast, roundHalfEven_natCast]

theorem dropTrailingZeros_replicate (k : ℕ) :
    dropTrailingZeros (List.replicate k '0') = [] := by
  unfold dropTrailingZeros
  rw [List.reverse_replicate, List.dropWhile_replicate]
  simp

theorem fmtSix_nat (n k : ℕ) (hn : n ≠ 0) (hk : Nat.log 10 n + k = 5) :
    fmtSix (n * 10 ^ k) ((Nat.log 10 n : ℤ))
      = ⟨(digitsOf n).reverse.map Nat.digitChar⟩ := by
  have he5 : Nat.log 10 n ≤ 5 := by omega
  unfold fmtSix
  rw [if_neg (by
    simp only [not_or, not_lt, not_le]
    omega), if_pos (by positivity : (0 : ℤ) ≤ (Nat.log 10 n : ℤ)),
    Int.toNat_natCast, digitsOf_mul_pow n k hn, List.reverse_append,
    List.reverse_replicate, List.map_append, List.map_replicate,
    show Nat.digitChar 0 = '0' from rfl]
  have hlen : ((digitsOf n).reverse.map Nat.digitChar).length = Nat.log 10 n + 1 := by
    rw [List.length_map, List.length_reverse, digitsOf_len n hn]
  rw [List.take_left' hlen, List.drop_left' hlen, dropTrailingZeros_replicate,
    if_pos rfl]

theorem fmtGPos_natCast (n : ℕ) (h1 : 1 ≤ n) (h6 : n < 10 ^ 6) :
    fmtGPos (n : ℚ) = ⟨(digitsOf n).reverse.map Nat.digitChar⟩ := by
  have hlow : 10 ^ Nat.log 10 n ≤ n := Nat.pow_log_le_self 10 (by omega)
  have hhigh : n < 10 ^ (Nat.log 10 n + 1) :=
    Nat.lt_pow_succ_log_self (by norm_num) n
  have hlog : Nat.log 10 n ≤ 5 := by
    have := Nat.log_lt_of_lt_pow (by omega : n ≠ 0) h6
    omega
  have hup : n * 10 ^ (5 - Nat.log 10 n) < 10 ^ 6 := by
    calc n * 10 ^ (5 - Nat.log 10 n)
        < 10 ^ (Nat.log 10 n + 1) * 10 ^ (5 - Nat.log 10 n) :=
          (Nat.mul_lt_mul_right (Nat.pow_pos (by norm_num : (0 : ℕ) < 10))).mpr hhigh
      _ = 10 ^ 6 := by
          rw [← pow_add]
          congr 1
          omega
  unfold fmtGPos
  rw [mantissaExp_natCast n h1 h6]
  rw [if_neg (by
    simp only [not_le]
    exact hup)]
  exact fmtSix_nat n (5 - Nat.log 10 n) (by omega) (by omega)

theorem fmtG_natCast (n : ℕ) (h6 : n < 10 ^ 6) : fmtG (n : ℚ) = ⟨natChars n⟩ := by
  rcases Nat.eq_zero_or_pos n with h0 | h1
  · subst h0
    rw [show ((0 : ℕ) : ℚ) = 0 from Nat.cast_zero, fmtG, if_pos rfl]
    rfl
  · unfold fmtG
    rw [if_neg (by
      simp only [Nat.cast_eq_zero]
      omega), if_neg (by
      simp only [not_lt]
      positivity), fmtGPos_natCast n h1 h6]
    unfold natChars natDigitsMSB
    rw [if_neg (by omega)]

/-! ## Lemmas about splitting and float parsing -/

theorem splitFirst_not_mem {c : Char} {l : List Char} (h : ∀ x ∈ l, x ≠ c) :
    splitFirst c l = none := by
  induction l with
  | nil => rfl
  | cons x t ih =>
    unfold splitFirst
    rw [if_neg (h x (List.mem_cons_self x t)),
      ih (fun y hy => h y (List.mem_cons_of_mem _ hy))]

theorem splitFirst_append {c : Char} {A B : List Char} (h : ∀ x ∈ A, x ≠ c) :
    splitFirst c (A ++ c :: B) = some (A, B) := by
  induction A with
  | nil =>
    show splitFirst c (c :: B) = some ([], B)
    unfold splitFirst
    rw [if_pos rfl]
  | cons x t ih =>
    show splitFirst c (x :: (t ++ c :: B)) = some (x :: t, B)
    unfold splitFirst
    rw [if_neg (h x (List.mem_cons_self x t)),
      ih (fun y hy => h y (List.mem_cons_of_mem _ hy))]

theorem normalizeText_eq (l : List Char)
    (h : ∀ c ∈ l, pyIsSpace c = false ∧ Char.toLower c = c ∧ c ≠ ' ') :
    ((pyStripL l).map Char.toLower).filter (fun c => c ≠ ' ') = l := by
  rw [pyStripL_eq_self (fun c hc => (h c hc).1),
    List.map_congr_left (fun c hc => (h c hc).2.1), List.map_id']
  refine List.filter_eq_self.mpr fun a ha => ?_
  simpa using (h a ha).2.2

theorem pyFloatMag_natChars (n : ℕ) :
    pyFloatMag (natChars n) = some ((n : ℕ) : ℚ) := by
  have hdrop : (natChars n).dropWhile Char.isDigit = [] :=
    List.dropWhile_eq_nil_iff.mpr (fun c hc => (natChars_facts n c hc).1)
  have htake : (natChars n).takeWhile Char.isDigit = natChars n := by
    have h := List.takeWhile_append_dropWhile Char.isDigit (natChars n)
    rw [hdrop, List.append_nil] at h
    exact h
  simp only [pyFloatMag, htake, hdrop, List.head?_nil]
  norm_num [natChars_ne_nil n, natFromDigitChars_natChars,
    show natFromDigitChars [] = 0 from rfl]

theorem pyFloatOpt_natChars (n : ℕ) :
    pyFloatOpt (natChars n) = some ((n : ℕ) : ℚ) := by
  unfold pyFloatOpt
  rw [pyStripL_eq_self (fun c hc => (natChars_facts n c hc).2.1)]
  obtain ⟨c, t, hct⟩ : ∃ c t, natChars n = c :: t := by
    cases h : natChars n with
    | nil => exact absurd h (natChars_ne_nil n)
    | cons c t => exact ⟨c, t, rfl⟩
  have hc : c ∈ natChars n := by
    rw [hct]
    exact List.mem_cons_self c t
  rw [hct]
  show (if c = '+' then pyFloatMag t
    else if c = '-' then (pyFloatMag t).map Neg.neg
    else pyFloatMag (c :: t)) = some ((n : ℕ) : ℚ)
  rw [if_neg (by simpa using (natChars_facts n c hc).2.2.2.2.2),
    if_neg (by simpa using (natChars_facts n c hc).2.2.2.2.1),
    ← hct, pyFloatMag_natChars]

/-! ## Claim C3 -/

theorem fmtG_lit (n : ℕ) (q : ℚ) (hq : q = (n : ℚ)) (h6 : n < 10 ^ 6) :
    fmtG q = ⟨natChars n⟩ := by
  rw [hq, fmtG_natCast n h6]

/-- Counterexample for claim C3: for the single-point range `5 V` the key
is the two-bound form `5-5v`, not the lower-casing `5v` of the display
form. -/
theorem key_fmt_counterexample :
    RangeSpec.key ⟨5, 5, "V"⟩ ≠ pyLower (RangeSpec.fmt ⟨5, 5, "V"⟩) := by
  have h5 : fmtG (5 : ℚ) = "5" := by
    rw [fmtG_lit 5 (5 : ℚ) (by norm_num) (by norm_num)]
    decide
  unfold RangeSpec.key RangeSpec.fmt
  rw [show RangeSpec.normalized ⟨5, 5, "V"⟩ = ⟨5, 5, "V"⟩ from by decide]
  rw [if_pos rfl, h5]
  decide

theorem rangeNorm_min_le_max (r : RangeSpec) : r.normalized.min ≤ r.normalized.max := by
  unfold RangeSpec.normalized
  split
  · next h => exact h
  · next h => exact le_of_not_le h

theorem rangeNorm_unit (r : RangeSpec) : r.normalized.unit = pyStrip r.unit := by
  unfold RangeSpec.normalized
  split <;> rfl

theorem rangeNorm_idem (r : RangeSpec) : r.normalized.normalized = r.normalized := by
  show (if r.normalized.min ≤ r.normalized.max then
      (⟨r.normalized.min, r.normalized.max, pyStrip r.normalized.unit⟩ : RangeSpec)
    else ⟨r.normalized.max, r.normalized.min, pyStrip r.normalized.unit⟩) = r.normalized
  rw [if_pos (rangeNorm_min_le_max r), rangeNorm_unit, pyStrip_idem, ← rangeNorm_unit]

theorem partNorm_idem (p : Part) : p.normalized.normalized = p.normalized := by
  show (⟨pyStrip (pyStrip p.category), pyStrip (pyStrip p.name),
      p.voltage.normalized.normalized, p.current.normalized.normalized,
      p.quantity, pyStrip (pyStrip p.notes)⟩ : Part) = p.normalized
  rw [pyStrip_idem, pyStrip_idem, pyStrip_idem, rangeNorm_idem, rangeNorm_idem]
  rfl

/-! ## Claim C9 -/

/-- Claim C9: range normalization is idempotent, and a normalized range
has ordered bounds and a whitespace-trimmed unit. -/
theorem rangeSpec_normalized_spec (r : RangeSpec) :
    r.normalized.normalized = r.normalized
    ∧ r.normalized.min ≤ r.normalized.max
    ∧ pyStrip r.normalized.unit = r.normalized.unit :=
  ⟨rangeNorm_idem r, rangeNorm_min_le_max r, by
    rw [rangeNorm_unit]
    exact pyStrip_idem r.unit⟩

/-! ## Claim C10 -/

/-- Claim C10: the dedupe key is invariant under normalization, so the
precondition that it be computed only after normalizing is unnecessary
for correctness. -/
theorem dedupe_key_invariant (p : Part) : p.normalized.dedupe_key = p.dedupe_key := by
  unfold Part.dedupe_key
  rw [partNorm_idem]

/-! ## Claim C8 -/

/-- Claim C8: validation normalizes and then reports exactly the first
violated check, in the order category, name, quantity, voltage, current,
with a message naming the field; a part passing every check is returned
normalized. -/
theorem validate_part_spec (p : Part) :
    (p.normalized.category = "" → validate_part p = .error "category is required")
    ∧ (p.normalized.category ≠ "" → p.normalized.name = "" →
        validate_part p = .error "name is required")
    ∧ (p.normalized.category ≠ "" → p.normalized.name ≠ "" →
        p.normalized.quantity ≤ 0 → validate_part p = .error "quantity must be > 0")
    ∧ (p.normalized.category ≠ "" → p.normalized.name ≠ "" →
        0 < p.normalized.quantity →
        (p.normalized.voltage.min < 0 ∨ p.normalized.voltage.max < 0) →
        validate_part p = .error "voltage cannot be negative")
    ∧ (p.normalized.category ≠ "" → p.normalized.name ≠ "" →
        0 < p.normalized.quantity →
        ¬(p.normalized.voltage.min < 0 ∨ p.normalized.voltage.max < 0) →
        (p.normalized.current.min < 0 ∨ p.normalized.current.max < 0) →
        validate_part p = .error "current cannot be negative")
    ∧ (p.normalized.category ≠ "" → p.normalized.name ≠ "" →
        0 < p.normalized.quantity →
        ¬(p.normalized.voltage.min < 0 ∨ p.normalized.voltage.max < 0) →
        ¬(p.normalized.current.min < 0 ∨ p.normalized.current.max < 0) →
        validate_part p = .ok p.normalized) := by
  unfold validate_part
  refine ⟨fun h1 => ?_, fun h1 h2 => ?_, fun h1 h2 h3 => ?_, fun h1 h2 h3 h4 => ?_,
    fun h1 h2 h3 h4 h5 => ?_, fun h1 h2 h3 h4 h5 => ?_⟩
  · rw [if_pos h1]
  · rw [if_neg h1, if_pos h2]
  · rw [if_neg h1, if_neg h2, if_pos h3]
  · rw [if_neg h1, if_neg h2, if_neg (not_le.mpr h3), if_pos h4]
  · rw [if_neg h1, if_neg h2, if_neg (not_le.mpr h3), if_neg h4, if_pos h5]
  · rw [if_neg h1, if_neg h2, if_neg (not_le.mpr h3), if_neg h4, if_neg h5]

/-- Witness for claim C8: a part violating both the category and the name
checks is reported on the category, the first check in the order. -/
theorem validate_part_spec_witness :
    validate_part ⟨" ", "", ⟨1, 2, "V"⟩, ⟨0, 1, "A"⟩, 0, ""⟩
      = .error "category is required" :=
  (validate_part_spec ⟨" ", "", ⟨1, 2, "V"⟩, ⟨0, 1, "A"⟩, 0, ""⟩).1 (by decide)

/-! ## Claim C3 -/

/-- Claim C3 (amended): the key form equals the lower-cased display form
exactly when the normalized bounds differ; for a single-point range the
key keeps the two-bound shape `min-max unit` while the display form shows
a single value. -/
theorem key_eq_lower_fmt (r : RangeSpec)
    (h : r.normalized.min ≠ r.normalized.max) :
    r.key = pyLower r.fmt := by
  unfold RangeSpec.key RangeSpec.fmt
  rw [if_neg h]

/-- Witness for the amended claim C3 at the two-point range `1-2 V`. -/
theorem key_eq_lower_fmt_witness :
    (⟨1, 2, "V"⟩ : RangeSpec).normalized.min ≠ (⟨1, 2, "V"⟩ : RangeSpec).normalized.max
    ∧ RangeSpec.key ⟨1, 2, "V"⟩ = pyLower (RangeSpec.fmt ⟨1, 2, "V"⟩) :=
  ⟨by decide, key_eq_lower_fmt ⟨1, 2, "V"⟩ (by decide)⟩

/-! ## Claim C4 -/

theorem parse_fmt_core (a b : ℕ) (u : String) (hab : a ≤ b) (hb6 : b < 10 ^ 6)
    (hu : pyStripL u.data ≠ []) :
    parse_range (RangeSpec.fmt ⟨(a : ℚ), (b : ℚ), ""⟩) u
      = .ok ⟨(a : ℚ), (b : ℚ), pyStrip u⟩ := by
  have hnorm : RangeSpec.normalized ⟨(a : ℚ), (b : ℚ), ""⟩ = ⟨(a : ℚ), (b : ℚ), ""⟩ := by
    unfold RangeSpec.normalized
    rw [if_pos (by exact_mod_cast hab : ((a : ℚ) ≤ (b : ℚ)))]
    rfl
  rcases Nat.eq_or_lt_of_le hab with heq | hlt
  · subst heq
    unfold RangeSpec.fmt
    rw [hnorm, if_pos rfl, fmtG_natCast a (by omega)]
    have htext : ((⟨natChars a⟩ : String) ++ "").data = natChars a := by
      show natChars a ++ ([] : List Char) = natChars a
      exact List.append_nil _
    unfold parse_range
    rw [htext, normalizeText_eq _ (fun c hc => ⟨(natChars_facts a c hc).2.1,
      (natChars_facts a c hc).2.2.1, (natChars_facts a c hc).2.2.2.1⟩)]
    rw [if_neg (natChars_ne_nil a), if_neg hu,
      splitFirst_not_mem (fun x hx => (natChars_facts a x hx).2.2.2.2.1)]
    show parseOne (natChars a) u = Except.ok ⟨(a : ℚ), (a : ℚ), pyStrip u⟩
    unfold parseOne
    rw [pyFloatOpt_natChars]
  · unfold RangeSpec.fmt
    rw [hnorm,
      if_neg (show ¬((a : ℚ) = (b : ℚ)) from by exact_mod_cast Nat.ne_of_lt hlt),
      fmtG_natCast a (by omega), fmtG_natCast b hb6]
    have htext : ((⟨natChars a⟩ : String) ++ "-" ++ (⟨natChars b⟩ : String) ++ "").data
        = natChars a ++ '-' :: natChars b := by
      show ((natChars a ++ ['-']) ++ natChars b) ++ ([] : List Char)
        = natChars a ++ '-' :: natChars b
      rw [List.append_nil, List.append_assoc]
      rfl
    have hmem : ∀ c ∈ natChars a ++ '-' :: natChars b,
        pyIsSpace c = false ∧ Char.toLower c = c ∧ c ≠ ' ' := by
      intro c hc
      rcases List.mem_append.mp hc with h | h
      · exact ⟨(natChars_facts a c h).2.1, (natChars_facts a c h).2.2.1,
          (natChars_facts a c h).2.2.2.1⟩
      · rcases List.mem_cons.mp h with rfl | h
        · exact ⟨by decide, by decide, by decide⟩
        · exact ⟨(natChars_facts b c h).2.1, (natChars_facts b c h).2.2.1,
            (natChars_facts b c h).2.2.2.1⟩
    unfold parse_range
    rw [htext, normalizeText_eq _ hmem,
      if_neg (show ¬(natChars a ++ '-' :: natChars b = []) from by simp),
      if_neg hu,
      splitFirst_append (fun x hx => (natChars_facts a x hx).2.2.2.2.1)]
    show parseTwo (natChars a) (natChars b) u
      = Except.ok ⟨(a : ℚ), (b : ℚ), pyStrip u⟩
    unfold parseTwo
    rw [pyFloatOpt_natChars, pyFloatOpt_natChars]

/-- Counterexample for claim C4: the display form carries the unit
suffix, which `float` cannot parse, so the round trip fails already for
the range `1-24 V`. -/
theorem roundtrip_counterexample :
    parse_range (RangeSpec.fmt ⟨1, 24, "V"⟩) "V"
      = Except.error "could not convert string to float" := by
  have hfmt : RangeSpec.fmt ⟨1, 24, "V"⟩ = "1-24V" := by
    unfold RangeSpec.fmt
    rw [show RangeSpec.normalized ⟨1, 24, "V"⟩ = ⟨1, 24, "V"⟩ from by decide,
      if_neg (by norm_num : ¬((1 : ℚ) = 24)),
      fmtG_lit 1 (1 : ℚ) (by norm_num) (by norm_num),
      fmtG_lit 24 (24 : ℚ) (by norm_num) (by norm_num)]
    decide
  rw [hfmt]
  rfl

/-- Claim C4 (amended): the round trip holds only for the unit-free text:
for natural bounds below `10^6` (values `%g` renders exactly) and a unit
that is non-blank after stripping, parsing the display form of the range
with an empty unit reproduces the normalized range; with the unit
appended, as the claim states it, parsing fails (see the
counterexample). -/
theorem parse_fmt_roundtrip (a b : ℕ) (u : String)
    (ha : a < 10 ^ 6) (hb : b < 10 ^ 6) (hu : pyStrip u ≠ "") :
    parse_range (RangeSpec.fmt ⟨(a : ℚ), (b : ℚ), ""⟩) u
      = .ok (RangeSpec.normalized ⟨(a : ℚ), (b : ℚ), u⟩) := by
  have hu' : pyStripL u.data ≠ [] := fun h => hu (congrArg String.mk h)
  rcases le_or_lt a b with hab | hlt
  · rw [parse_fmt_core a b u hab hb hu']
    unfold RangeSpec.normalized
    rw [if_pos (by exact_mod_cast hab : ((a : ℚ) ≤ (b : ℚ)))]
  · have hswap : RangeSpec.fmt ⟨(a : ℚ), (b : ℚ), ""⟩
        = RangeSpec.fmt ⟨(b : ℚ), (a : ℚ), ""⟩ := by
      unfold RangeSpec.fmt RangeSpec.normalized
      rw [if_neg (show ¬((a : ℚ) ≤ (b : ℚ)) from by exact_mod_cast not_le.mpr hlt),
        if_pos (show (b : ℚ) ≤ (a : ℚ) from by exact_mod_cast le_of_lt hlt)]
    rw [hswap, parse_fmt_core b a u (le_of_lt hlt) ha hu']
    unfold RangeSpec.normalized
    rw [if_neg (show ¬((a : ℚ) ≤ (b : ℚ)) from by exact_mod_cast not_le.mpr hlt)]

/-- Witness for the amended claim C4 at the range `1-24` with unit `V`. -/
theorem parse_fmt_roundtrip_witness :
    parse_range (RangeSpec.fmt ⟨((1 : ℕ) : ℚ), ((24 : ℕ) : ℚ), ""⟩) "V"
      = .ok (RangeSpec.normalized ⟨((1 : ℕ) : ℚ), ((24 : ℕ) : ℚ), "V"⟩) :=
  parse_fmt_roundtrip 1 24 "V" (by norm_num) (by norm_num) (by decide)

/-! ## Claim C5 -/

/-- Counterexample for claim C5: `parse_range("-5", "V")` raises instead
of returning the single-point range `-5`; the leading `-` is consumed as
the delimiter and the empty left side fails to convert. -/
theorem leading_dash_counterexample :
    parse_range "-5" "V" = Except.error "could not convert string to float" := rfl

/-- Claim C5 (amended): every `-`, including a leading one, acts as the
split delimiter; any range text that, after stripping, lower-casing and
space removal, starts with `-` makes `parse_range` fail, because the
empty text left of the first `-` does not convert to a number. -/
theorem parse_range_leading_dash (text unit : String)
    (h : (((pyStripL text.data).map Char.toLower).filter
      (fun c => c ≠ ' ')).head? = some '-') :
    isOkE (parse_range text unit) = false := by
  unfold parse_range
  cases hs : ((pyStripL text.data).map Char.toLower).filter (fun c => c ≠ ' ') with
  | nil =>
    rw [hs] at h
    simp at h
  | cons c t =>
    rw [hs] at h
    simp only [List.head?_cons, Option.some.injEq] at h
    subst h
    rw [if_neg (by simp)]
    by_cases hunit : pyStripL unit.data = []
    · rw [if_pos hunit]
      rfl
    · rw [if_neg hunit]
      rw [show splitFirst '-' ('-' :: t) = some ([], t) from by
        unfold splitFirst
        rw [if_pos rfl]]
      show isOkE (parseTwo [] t unit) = false
      unfold parseTwo
      rw [show pyFloatOpt [] = none from rfl]
      rfl

/-- Witness for the amended claim C5 at the text `-5`. -/
theorem parse_range_leading_dash_witness :
    isOkE (parse_range "-5" "V") = false :=
  parse_range_leading_dash "-5" "V" (by decide)

/-! ## Lemmas about dictionaries -/

theorem objLookupJ_obj (fs : List (String × JVal)) (k : String) :
    objLookupJ (.obj fs) k = objLookup fs k := rfl

theorem objLookup_setAssoc_self (fs : List (String × JVal)) (k : String) (v : JVal) :
    objLookup (setAssoc fs k v) k = some v := by
  induction fs with
  | nil =>
    show objLookup [(k, v)] k = some v
    unfold objLookup
    rw [if_pos rfl]
  | cons kv t ih =>
    obtain ⟨k', v'⟩ := kv
    unfold setAssoc
    by_cases h : k' = k
    · rw [if_pos h]
      unfold objLookup
      rw [if_pos rfl]
    · rw [if_neg h]
      unfold objLookup
      rw [if_neg h, ih]

theorem objLookup_setAssoc_other (fs : List (String × JVal)) (k k2 : String) (v : JVal)
    (h : k ≠ k2) :
    objLookup (setAssoc fs k v) k2 = objLookup fs k2 := by
  induction fs with
  | nil =>
    show objLookup [(k, v)] k2 = objLookup [] k2
    unfold objLookup
    rw [if_neg h]
    rfl
  | cons kv t ih =>
    obtain ⟨k', v'⟩ := kv
    unfold setAssoc
    by_cases hk : k' = k
    · rw [if_pos hk]
      show objLookup ((k, v) :: t) k2 = objLookup ((k', v') :: t) k2
      unfold objLookup
      rw [if_neg h, if_neg (by rw [hk]; exact h)]
    · rw [if_neg hk]
      unfold objLookup
      by_cases h2 : k' = k2
      · rw [if_pos h2, if_pos h2]
      · rw [if_neg h2, if_neg h2, ih]

/-! ## Claim C6 -/

/-- Counterexample for claim C6: a top-level record without a usable
`parts` field keeps its other fields, so the result is not the empty
database. -/
theorem load_db_counterexample :
    load_db (.parsed (.obj [("foo", .num 7)])) ≠ empty_db := by
  intro h
  exact absurd (congrArg (fun v => (dbFields v).map Prod.fst) h) (by decide)

/-- Claim C6 (amended): a missing file, undecodable content, or a
non-record top level yields exactly the empty database; but a record
whose `parts` is missing or not a sequence is repaired in place — its
`parts` becomes the empty list, its other fields survive, and `version`
is defaulted to 1 only when absent. -/
theorem load_db_spec :
    load_db .missing = empty_db
    ∧ load_db .invalid = empty_db
    ∧ (∀ v : JVal, isObjB v = false → load_db (.parsed v) = empty_db)
    ∧ (∀ fs : List (String × JVal), partsOkB (.obj fs) = false →
        objLookupJ (load_db (.parsed (.obj fs))) "parts" = some (.arr [])
        ∧ (∀ k, k ≠ "parts" → k ≠ "version" →
            objLookupJ (load_db (.parsed (.obj fs))) k = objLookup fs k)
        ∧ (∀ w, objLookup fs "version" = some w →
            objLookupJ (load_db (.parsed (.obj fs))) "version" = some w)
        ∧ (objLookup fs "version" = none →
            objLookupJ (load_db (.parsed (.obj fs))) "version" = some (.num 1))) := by
  refine ⟨rfl, rfl, fun v hv => ?_, fun fs hbad => ?_⟩
  · unfold load_db
    dsimp only
    rw [if_neg (by simp [hv])]
  · have hrep : repairParts (.obj fs) = .obj (setAssoc fs "parts" (.arr [])) := by
      unfold repairParts
      rw [if_neg (by simp [hbad])]
      rfl
    have hvparts : ∀ k : String, "parts" ≠ k →
        objLookup (setAssoc fs "parts" (.arr [])) k = objLookup fs k :=
      fun k hk => objLookup_setAssoc_other fs "parts" k _ hk
    unfold load_db
    dsimp only
    rw [if_pos (show isObjB (JVal.obj fs) = true from rfl), hrep]
    cases hver : objLookup fs "version" with
    | some w =>
      rw [show objLookupJ (JVal.obj (setAssoc fs "parts" (.arr []))) "version"
          = some w from by rw [objLookupJ_obj, hvparts "version" (by decide), hver]]
      rw [if_pos (show (some w).isSome = true from rfl)]
      refine ⟨?_, ?_, ?_, ?_⟩
      · rw [objLookupJ_obj, objLookup_setAssoc_self]
      · intro k hk1 _
        rw [objLookupJ_obj, hvparts k (fun hcontra => hk1 hcontra.symm)]
      · intro w' hw'
        rw [objLookupJ_obj, hvparts "version" (by decide), hver]
        exact hw'
      · intro hnone
        cases hnone
    | none =>
      rw [show objLookupJ (JVal.obj (setAssoc fs "parts" (.arr []))) "version"
          = none from by rw [objLookupJ_obj, hvparts "version" (by decide), hver]]
      rw [if_neg (by simp)]
      refine ⟨?_, ?_, ?_, ?_⟩
      · show objLookup (setAssoc (setAssoc fs "parts" (.arr [])) "version" (.num 1)) "parts"
          = some (.arr [])
        rw [objLookup_setAssoc_other _ _ _ _ (by decide), objLookup_setAssoc_self]
      · intro k hk1 hk2
        show objLookup (setAssoc (setAssoc fs "parts" (.arr [])) "version" (.num 1)) k
          = objLookup fs k
        rw [objLookup_setAssoc_other _ _ _ _ (fun hcontra => hk2 hcontra.symm),
          hvparts k (fun hcontra => hk1 hcontra.symm)]
      · intro w' hw'
        cases hw'
      · intro _
        show objLookup (setAssoc (setAssoc fs "parts" (.arr [])) "version" (.num 1)) "version"
          = some (.num 1)
        rw [objLookup_setAssoc_self]

/-- Witness for the amended claim C6: loading a decoded non-record yields
the empty database. -/
theorem load_db_spec_witness : load_db (.parsed (.num 3)) = empty_db :=
  load_db_spec.2.2.1 (.num 3) rfl

/-! ## Lemmas about the unguarded id conversion -/

theorem pyIntE_ok {o : Option JVal} {j : ℤ} (h : o.bind pyIntOpt = some j) :
    pyIntE o = .ok j := by
  cases o with
  | none => cases h
  | some x =>
    show (match pyIntOpt x with
      | some i => Except.ok i
      | none => Except.error "invalid literal for int()") = Except.ok j
    rw [show pyIntOpt x = some j from h]

theorem pyIntE_err {o : Option JVal} (h : o.bind pyIntOpt = none) :
    ∃ e, pyIntE o = .error e := by
  cases o with
  | none => exact ⟨"attribute error", rfl⟩
  | some x =>
    refine ⟨"invalid literal for int()", ?_⟩
    show (match pyIntOpt x with
      | some i => Except.ok i
      | none => Except.error "invalid literal for int()") = _
    rw [show pyIntOpt x = none from h]

/-! ## Claim C7 -/

/-- Counterexample for claim C7: `show` on a database holding a record
with the non-numeric id `"x"` raises a reported error instead of quietly
skipping the record. -/
theorem show_nonnumeric_id_counterexample :
    action_show [JVal.obj [("id", JVal.str "x")]] 3
      = Except.error "invalid literal for int()" := rfl

/-- Claim C7 (amended): a record whose id does not convert to an integer
is tolerated by the next-id scan, which skips it; but the id scans of
show, remove and edit raise a reported error as soon as they reach such a
record. -/
theorem structural_tolerance_amended (v : JVal)
    (hv : ∀ dflt : JVal, (pyGet v "id" dflt).bind pyIntOpt = none)
    (pre post rest : List JVal) (id_ : ℤ) (dec : Option ℤ) (cand : Part) :
    next_id (pre ++ v :: post) = next_id (pre ++ post)
    ∧ isOkE (action_show (v :: rest) id_) = false
    ∧ isOkE (action_remove (v :: rest) id_ dec) = false
    ∧ isOkE (action_edit (v :: rest) id_ cand) = false := by
  obtain ⟨e, he⟩ := pyIntE_err (hv (.num (-1)))
  refine ⟨?_, ?_, ?_, ?_⟩
  · unfold next_id
    rw [List.foldl_append, List.foldl_append, List.foldl_cons,
      hv (JVal.num 0)]
  · unfold action_show
    rw [he]
    rfl
  · unfold action_remove
    rw [he]
    rfl
  · unfold action_edit
    rw [he]
    rfl

/-- Witness for the amended claim C7 at a record with id `"x"`. -/
theorem structural_tolerance_amended_witness :
    next_id ([] ++ JVal.obj [("id", JVal.str "x")] :: []) = next_id ([] ++ [])
    ∧ isOkE (action_show (JVal.obj [("id", JVal.str "x")] :: []) 3) = false
    ∧ isOkE (action_remove (JVal.obj [("id", JVal.str "x")] :: []) 3 none) = false
    ∧ isOkE (action_edit (JVal.obj [("id", JVal.str "x")] :: []) 3
        ⟨"a", "b", ⟨1, 2, "V"⟩, ⟨0, 1, "A"⟩, 1, ""⟩) = false :=
  structural_tolerance_amended (JVal.obj [("id", JVal.str "x")]) (fun _ => rfl)
    [] [] [] 3 none ⟨"a", "b", ⟨1, 2, "V"⟩, ⟨0, 1, "A"⟩, 1, ""⟩

/-! ## Claim C2 -/

theorem action_remove_cons (d : JVal) (t : List JVal) (id_ : ℤ) (dec : Option ℤ) :
    action_remove (d :: t) id_ dec
      = (pyIntE (pyGet d "id" (.num (-1)))).bind fun i =>
          if i = id_ then
            match dec with
            | none => .ok (.deleted, t)
            | some n =>
              if n ≤ 0 then .ok (.usage, d :: t)
              else
                (pyIntE (pyGet d "quantity" (.num 0))).bind fun q =>
                  if 0 < q - n then
                    .ok (.decremented (q - n),
                      objSet d "quantity" (.num ((q - n : ℤ) : ℚ)) :: t)
                  else .ok (.removedAtZero, t)
          else (action_remove t id_ dec).map fun mt => (mt.1, d :: mt.2) := rfl

theorem action_remove_skip (pre l : List JVal) (id_ : ℤ) (dec : Option ℤ)
    (hpre : ∀ d' ∈ pre, ∃ j : ℤ,
      (pyGet d' "id" (.num (-1))).bind pyIntOpt = some j ∧ j ≠ id_) :
    action_remove (pre ++ l) id_ dec
      = (action_remove l id_ dec).map fun mt => (mt.1, pre ++ mt.2) := by
  induction pre with
  | nil =>
    simp only [List.nil_append]
    cases action_remove l id_ dec with
    | ok mt => rfl
    | error e => rfl
  | cons d pre ih =>
    obtain ⟨j, hj, hne⟩ := hpre d (List.mem_cons_self d pre)
    show action_remove (d :: (pre ++ l)) id_ dec = _
    rw [action_remove_cons, pyIntE_ok hj]
    dsimp only [Except.bind]
    rw [if_neg hne, ih (fun y hy => hpre y (List.mem_cons_of_mem _ hy))]
    cases action_remove l id_ dec with
    | ok mt => rfl
    | error e => rfl

/-- Claim C2: on a database containing a record with the requested id
(reached without scanning past malformed ids), removing with decrement
`n` rejects `n ≤ 0` with a usage outcome and no state change; with
`n > 0` it subtracts `n` from the record's quantity, keeping the record
exactly when the result stays positive and deleting it otherwise — so a
decrement never persists a zero or negative quantity. -/
theorem action_remove_spec (pre post : List JVal) (d : JVal) (id_ : ℤ)
    (hpre : ∀ d' ∈ pre, ∃ j : ℤ,
      (pyGet d' "id" (.num (-1))).bind pyIntOpt = some j ∧ j ≠ id_)
    (hd : (pyGet d "id" (.num (-1))).bind pyIntOpt = some id_) :
    (∀ n : ℤ, n ≤ 0 →
      action_remove (pre ++ d :: post) id_ (some n) = .ok (.usage, pre ++ d :: post))
    ∧ (∀ n q : ℤ, (pyGet d "quantity" (.num 0)).bind pyIntOpt = some q →
        0 < n → 0 < q - n →
        action_remove (pre ++ d :: post) id_ (some n)
          = .ok (.decremented (q - n),
              pre ++ objSet d "quantity" (.num ((q - n : ℤ) : ℚ)) :: post))
    ∧ (∀ n q : ℤ, (pyGet d "quantity" (.num 0)).bind pyIntOpt = some q →
        0 < n → q - n ≤ 0 →
        action_remove (pre ++ d :: post) id_ (some n)
          = .ok (.removedAtZero, pre ++ post)) := by
  refine ⟨fun n hn => ?_, fun n q hq hn hqn => ?_, fun n q hq hn hqn => ?_⟩
  all_goals rw [action_remove_skip pre (d :: post) id_ (some n) hpre]
  · have hfound : action_remove (d :: post) id_ (some n) = .ok (.usage, d :: post) := by
      rw [action_remove_cons, pyIntE_ok hd]
      dsimp only [Except.bind]
      rw [if_pos rfl, if_pos hn]
    rw [hfound]
    rfl
  · have hfound : action_remove (d :: post) id_ (some n)
        = .ok (.decremented (q - n),
            objSet d "quantity" (.num ((q - n : ℤ) : ℚ)) :: post) := by
      rw [action_remove_cons, pyIntE_ok hd]
      dsimp only [Except.bind]
      rw [if_pos rfl, if_neg (show ¬(n ≤ 0) from by omega), pyIntE_ok hq]
      dsimp only [Except.bind]
      rw [if_pos hqn]
    rw [hfound]
    rfl
  · have hfound : action_remove (d :: post) id_ (some n) = .ok (.removedAtZero, post) := by
      rw [action_remove_cons, pyIntE_ok hd]
      dsimp only [Except.bind]
      rw [if_pos rfl, if_neg (show ¬(n ≤ 0) from by omega), pyIntE_ok hq]
      dsimp only [Except.bind]
      rw [if_neg (not_lt.mpr hqn)]
    rw [hfound]
    rfl

/-- Witness for claim C2: decrementing a quantity-5 record by 2 keeps it
with quantity 3. -/
theorem action_remove_spec_witness :
    action_remove [JVal.obj [("id", JVal.num 1), ("quantity", JVal.num 5)]] 1 (some 2)
      = .ok (.decremented (5 - 2),
          [] ++ objSet (JVal.obj [("id", JVal.num 1), ("quantity", JVal.num 5)])
            "quantity" (.num (((5 - 2 : ℤ)) : ℚ)) :: []) :=
  (action_remove_spec [] []
      (JVal.obj [("id", JVal.num 1), ("quantity", JVal.num 5)]) 1
      (by simp) rfl).2.1 2 5 rfl (by norm_num) (by norm_num)

/-! ## Claim C1 -/

/-- A record that decodes has a convertible `quantity` field whose value
is the decoded part's quantity (`int(item.get("quantity", 0))` cannot
raise on a decodable record). -/
theorem part_from_dict_quantity {d : JVal} {ex : RawPart}
    (h : part_from_dict d = some ex) :
    (pyGet d "quantity" (.num 0)).bind pyIntOpt = some ex.quantity := by
  cases d with
  | null => exact Option.noConfusion h
  | bool b => exact Option.noConfusion h
  | num q => exact Option.noConfusion h
  | str s => exact Option.noConfusion h
  | arr l => exact Option.noConfusion h
  | obj fs =>
    replace h : (match objLookup fs "category", objLookup fs "name" with
      | some c, some n =>
        match (objLookup fs "voltage").bind rangeFromDict,
              (objLookup fs "current").bind rangeFromDict with
        | some v, some i =>
          match (objLookup fs "quantity").bind pyIntOpt with
          | some q =>
            some (⟨c, n, v, i, q, pyStr ((objLookup fs "notes").getD (.str ""))⟩ : RawPart)
          | none => none
        | _, _ => none
      | _, _ => none) = some ex := h
    split at h
    · split at h
      · split at h
        · rename_i q hq
          injection h with h'
          subst h'
          cases hql : objLookup fs "quantity" with
          | none =>
            rw [hql] at hq
            cases hq
          | some x =>
            rw [hql] at hq
            show (some ((objLookup fs "quantity").getD (.num 0))).bind pyIntOpt = _
            rw [hql]
            exact hq
        · exact Option.noConfusion h
      · exact Option.noConfusion h
    · exact Option.noConfusion h

theorem mergeScan_cons (d : JVal) (t : List JVal) (p : Part) :
    mergeScan (d :: t) p
      = match part_from_dict d with
        | some ex =>
          (dynDedupeKey ex).bind fun k =>
            if k = p.dedupe_key then
              (pyIntE (pyGet d "quantity" (.num 0))).bind fun q =>
                .ok (some (objSet d "quantity" (.num ((q + p.quantity : ℤ) : ℚ)) :: t))
            else (mergeScan t p).map (Option.map (d :: ·))
        | none => (mergeScan t p).map (Option.map (d :: ·)) := rfl

/-- A record the merge scan passes over without effect: its construction
raises (and the loop's `except: continue` skips it), or it constructs and
its dedupe key computes to a value different from the candidate's.  A
constructible record whose key computation raises is neither: it aborts
the action. -/
def SkipsMerge (p : Part) (d : JVal) : Prop :=
  part_from_dict d = none
    ∨ ∀ ex, part_from_dict d = some ex →
        ∃ k, dynDedupeKey ex = .ok k ∧ k ≠ p.dedupe_key

theorem mergeScan_none (l : List JVal) (p : Part) (h : ∀ d ∈ l, SkipsMerge p d) :
    mergeScan l p = .ok none := by
  induction l with
  | nil => rfl
  | cons d t ih =>
    have ht := ih (fun y hy => h y (List.mem_cons_of_mem _ hy))
    rw [mergeScan_cons]
    cases hpd : part_from_dict d with
    | none =>
      dsimp only
      rw [ht]
      rfl
    | some ex =>
      have hks : ∃ k, dynDedupeKey ex = .ok k ∧ k ≠ p.dedupe_key := by
        rcases h d (List.mem_cons_self d t) with h0 | h0
        · rw [hpd] at h0
          cases h0
        · exact h0 ex hpd
      obtain ⟨k, hk, hne⟩ := hks
      dsimp only
      rw [hk]
      dsimp only [Except.bind]
      rw [if_neg hne, ht]
      rfl

theorem mergeScan_found (pre post : List JVal) (d : JVal) (p : Part) (ex : RawPart)
    (hpre : ∀ d' ∈ pre, SkipsMerge p d')
    (hd : part_from_dict d = some ex)
    (hkey : dynDedupeKey ex = .ok p.dedupe_key) :
    mergeScan (pre ++ d :: post) p
      = .ok (some (pre ++
          objSet d "quantity" (.num ((ex.quantity + p.quantity : ℤ) : ℚ)) :: post)) := by
  induction pre with
  | nil =>
    show mergeScan (d :: post) p = _
    rw [mergeScan_cons, hd]
    dsimp only
    rw [hkey]
    dsimp only [Except.bind]
    rw [if_pos (show p.dedupe_key = p.dedupe_key from rfl),
      pyIntE_ok (part_from_dict_quantity hd)]
    rfl
  | cons d' pre ih =>
    have hrest := ih (fun y hy => hpre y (List.mem_cons_of_mem _ hy))
    show mergeScan (d' :: (pre ++ d :: post)) p = _
    rw [mergeScan_cons]
    cases hpd : part_from_dict d' with
    | none =>
      dsimp only
      rw [hrest]
      rfl
    | some e =>
      have hks : ∃ k, dynDedupeKey e = .ok k ∧ k ≠ p.dedupe_key := by
        rcases hpre d' (List.mem_cons_self d' pre) with h0 | h0
        · rw [hpd] at h0
          cases h0
        · exact h0 e hpd
      obtain ⟨k, hk, hne⟩ := hks
      dsimp only
      rw [hk]
      dsimp only [Except.bind]
      rw [if_neg hne, hrest]
      rfl

/-- The `next_id` fold equals the claim's "one plus the maximum of the
existing ids, malformed or missing ids counted as zero". -/
theorem next_id_eq (parts : List JVal) : next_id parts = claimMaxIds parts + 1 := by
  unfold next_id claimMaxIds
  have key : ∀ (l : List JVal) (m : ℤ), 0 ≤ m →
      l.foldl (fun m d =>
        match (pyGet d "id" (.num 0)).bind pyIntOpt with
        | some v => max m v
        | none => m) m
        = (l.map idClaim).foldl max m := by
    intro l
    induction l with
    | nil => intro m _; rfl
    | cons d t ih =>
      intro m hm
      rw [List.map_cons, List.foldl_cons, List.foldl_cons]
      cases hid : (pyGet d "id" (.num 0)).bind pyIntOpt with
      | some v =>
        rw [show idClaim d = v from by
          unfold idClaim
          rw [hid]
          rfl]
        exact ih (max m v) (le_trans hm (le_max_left m v))
      | none =>
        rw [show idClaim d = 0 from by
          unfold idClaim
          rw [hid]
          rfl, max_eq_left hm]
        exact ih m hm
  rw [key parts 0 (le_refl 0)]

/-- Claim C1: adding a validated part to a database whose records all
carry non-negative ids merges into the first decodable record with the
same dedupe key — decodable meaning the record constructs and its dedupe
key computes without raising — adding exactly the candidate's quantity
and touching nothing else; when every record is skipped (fails to
construct, or constructs with a computable, different key), it appends
exactly one record with id one plus the maximum existing id (malformed or
missing ids counted as zero), leaving the existing records unchanged. -/
theorem action_add_spec (parts : List JVal) (p : Part)
    (hval : ∃ p0, validate_part p0 = Except.ok p)
    (hids : ∀ d ∈ parts, 0 ≤ idClaim d) :
    (∀ pre d post ex,
      parts = pre ++ d :: post →
      (∀ d' ∈ pre, SkipsMerge p d') →
      part_from_dict d = some ex →
      dynDedupeKey ex = .ok p.dedupe_key →
      action_add parts p
        = .ok (pre ++
            objSet d "quantity" (.num ((ex.quantity + p.quantity : ℤ) : ℚ)) :: post))
    ∧ ((∀ d ∈ parts, SkipsMerge p d) →
      action_add parts p
        = .ok (parts ++ [objSet (part_to_dict p) "id"
            (.num ((claimMaxIds parts + 1 : ℤ) : ℚ))])) := by
  constructor
  · intro pre d post ex hparts hpre hd hkey
    subst hparts
    unfold action_add
    rw [mergeScan_found pre post d p ex hpre hd hkey]
    rfl
  · intro hall
    unfold action_add
    rw [mergeScan_none parts p hall, next_id_eq]
    rfl

/-- Witness for claim C1: adding a validated part whose dedupe key
matches the single stored record merges the quantities `3 + 3`. -/
theorem action_add_spec_witness :
    action_add
      [JVal.obj [("category", JVal.str "Res"), ("name", JVal.str "10k"),
        ("voltage", JVal.obj [("min", JVal.num 1), ("max", JVal.num 2),
          ("unit", JVal.str "V")]),
        ("current", JVal.obj [("min", JVal.num 0), ("max", JVal.num 1),
          ("unit", JVal.str "A")]),
        ("quantity", JVal.num 3), ("id", JVal.num 1)]]
      ⟨"Res", "10k", ⟨1, 2, "V"⟩, ⟨0, 1, "A"⟩, 3, ""⟩
      = .ok ([] ++
          objSet
            (JVal.obj [("category", JVal.str "Res"), ("name", JVal.str "10k"),
              ("voltage", JVal.obj [("min", JVal.num 1), ("max", JVal.num 2),
                ("unit", JVal.str "V")]),
              ("current", JVal.obj [("min", JVal.num 0), ("max", JVal.num 1),
                ("unit", JVal.str "A")]),
              ("quantity", JVal.num 3), ("id", JVal.num 1)])
            "quantity" (.num ((3 + 3 : ℤ) : ℚ)) :: []) :=
  (action_add_spec _ ⟨"Res", "10k", ⟨1, 2, "V"⟩, ⟨0, 1, "A"⟩, 3, ""⟩
      ⟨⟨"Res", "10k", ⟨1, 2, "V"⟩, ⟨0, 1, "A"⟩, 3, ""⟩, rfl⟩
      (by
        intro d hd
        rw [List.mem_singleton] at hd
        subst hd
        decide)).1
    [] _ []
    ⟨JVal.str "Res", JVal.str "10k", ⟨JVal.num 1, JVal.num 2, JVal.str "V"⟩,
      ⟨JVal.num 0, JVal.num 1, JVal.str "A"⟩, 3, ""⟩
    rfl (by simp) rfl rfl

end Inventory
